import Mathlib

/-!
Shallow embedding of two fragments of the `pyro` repository:

* `src/pyro/contrib/gp/parameterized.py` — the `Parameterized` store:
  prior registration via `__setattr__`, `autoguide`, `set_mode`,
  `_pyro_sample`, `_get_guide`, and the helper `_get_independent_support`.
* `src/pyro/distributions/polya_gamma.py` — `TruncatedPolyaGamma.sample`
  and `TruncatedPolyaGamma.log_prob`.

Tensors are modelled as a shape (list of dimension sizes) together with a
flat list of real entries; `detach()` is modelled as the identity on the
value (autograd graphs are outside the embedding).  Distribution objects,
constraints and bijective transforms of the host framework (torch / pyro
core, which are external collaborators of this code) are modelled as small
inductive types covering the variants this code manipulates: the
unconstrained real constraint, the positive constraint (whose canonical
bijection `biject_to(positive)` is the elementwise exponential), the
lower-Cholesky constraint, and the `Independent` ("independent-dimensions")
wrapper.  The global sampling primitive `pyro.sample` is modelled by an
oracle assigning a drawn tensor to each sample-site name, and every
executed sample statement is returned explicitly so that theorems can talk
about which draws occurred and how they were tagged.
-/

namespace Pyro

/-- A tensor: a shape and its flat data, row-major.  `dim()` is the length
of the shape. -/
structure Tensor where
  shape : List Nat
  data : List ℝ

/-- `t.dim()` in torch: the tensor rank. -/
def Tensor.dim (t : Tensor) : Nat := t.shape.length

/-- Elementwise map over a tensor (shape preserved), the model of an
elementwise torch transform applied to a tensor. -/
def tmap (f : ℝ → ℝ) (t : Tensor) : Tensor := ⟨t.shape, t.data.map f⟩

/-- Elementwise binary map over two tensors of the same shape (used for a
Jacobian term computed from a (value, unconstrained value) pair). -/
def tzip (f : ℝ → ℝ → ℝ) (a b : Tensor) : Tensor :=
  ⟨a.shape, (a.data.zip b.data).map fun p => f p.1 p.2⟩

/-- `t.sum()`: sum of all entries, as a scalar. -/
def Tensor.sumAll (t : Tensor) : ℝ := t.data.sum

/-- `loc.new_ones(loc.shape)`: an all-ones tensor of the same shape. -/
def onesLike (t : Tensor) : Tensor := ⟨t.shape, t.data.map fun _ => 1⟩

/-- Flat data of an `n × n` identity matrix (`eye_like`). -/
def eyeData (n : Nat) : List ℝ :=
  (List.range (n * n)).map fun k => if k / n = k % n then (1 : ℝ) else 0

/-- Constraints of the host framework that this code manipulates.
`indep c n` models `constraints.independent(c, n)`, the support reported
by a `dist.Independent` wrapper. -/
inductive Constraint where
  | real
  | positive
  | lowerCholesky
  | indep (c : Constraint) (n : Nat)
deriving DecidableEq, Repr

/-- Membership of a tensor in a constraint, elementwise for the scalar
constraints; the `Independent` wrapper does not change the underlying set
of legal tensors. -/
def Constraint.memT : Constraint → Tensor → Prop
  | .real, _ => True
  | .positive, t => ∀ x ∈ t.data, 0 < x
  | .lowerCholesky, t =>
      match t.shape with
      | [n, m] => n = m ∧
          (∀ i j, i < n → j < n → i < j → t.data.getD (i * n + j) 0 = 0) ∧
          (∀ i, i < n → 0 < t.data.getD (i * n + i) 0)
      | _ => False
  | .indep c _, t => c.memT t

/-- Supports of the primitive (non-`Independent`) prior distributions the
model quantifies over: those for which `biject_to` is a genuine elementwise
bijection in the host framework. -/
inductive PriorSupport where
  | real
  | positive
deriving DecidableEq, Repr

def PriorSupport.toConstraint : PriorSupport → Constraint
  | .real => .real
  | .positive => .positive

/-- A prior distribution object: a primitive distribution with a given
support, possibly wrapped by `dist.Independent` adapters. -/
inductive PDist where
  | prim (s : PriorSupport)
  | independent (d : PDist) (n : Nat)
deriving DecidableEq, Repr

/-- `dist_instance.support`: an `Independent` wrapper reports its base
distribution's support wrapped as an independent constraint. -/
def PDist.support : PDist → Constraint
  | .prim s => s.toConstraint
  | .independent d n => .indep d.support n

/-- `_get_independent_support` (parameterized.py lines 12–16): recursively
unwrap `dist.Independent` wrappers and return the base distribution's own
support. -/
def _get_independent_support : PDist → Constraint
  | .independent d _ => _get_independent_support d
  | .prim s => s.toConstraint

/-- Forward direction of `biject_to(c)`, elementwise: the identity on the
reals, `exp` for the positive constraint; `biject_to` of an independent
constraint applies the base bijection (elementwise, so the wrapper is
transparent). -/
noncomputable def bijectFwd : Constraint → ℝ → ℝ
  | .positive => Real.exp
  | .indep c _ => bijectFwd c
  | _ => id

/-- `biject_to(c).inv`, elementwise (`log` for the positive constraint). -/
noncomputable def bijectInv : Constraint → ℝ → ℝ
  | .positive => Real.log
  | .indep c _ => bijectInv c
  | _ => id

/-- `biject_to(c).inv.log_abs_det_jacobian(y, x)` elementwise, where
`y` is the constrained value and `x = biject_to(c).inv(y)`: for the
exponential bijection of the positive constraint this is `-log y`. -/
noncomputable def bijectInvLadj : Constraint → ℝ → ℝ → ℝ
  | .positive => fun y _ => -Real.log y
  | .indep c _ => bijectInvLadj c
  | _ => fun _ _ => 0

/-- The guide-family argument `dist_constructor` of `autoguide`: the three
supported distribution constructors, plus any other constructor
(`otherDist tag`). -/
inductive GuideFamily where
  | delta
  | normal
  | multivariateNormal
  | otherDist (tag : String)
deriving DecidableEq, Repr

/-- An attribute stored on the module.  `param` is a plain
`torch.nn.Parameter` (free, unconstrained); `pyroParam t c` is a
`PyroParam` whose read produces the constrained value `t` under constraint
`c`; `sampleAttr prior cur` is a prior-bearing attribute (set from a
`PyroSample`) whose current buffer value is `cur`.
The buffer value is modelled from the spec: "Under the hood, we move
parameters to a buffer store"; `autoguide` reads "the current value `p` of
attribute `name`". -/
inductive Attr where
  | param (t : Tensor)
  | pyroParam (t : Tensor) (c : Constraint)
  | sampleAttr (prior : PDist) (cur : Tensor)

/-- Reading an attribute yields its current tensor value. -/
def Attr.read : Attr → Tensor
  | .param t => t
  | .pyroParam t _ => t
  | .sampleAttr _ cur => cur

/-- Association-list lookup by name. -/
def alGet {α : Type} : List (String × α) → String → Option α
  | [], _ => none
  | (k, v) :: t, n => if k = n then some v else alGet t n

/-- Association-list update/insert by name (`setattr` / `cache.set`). -/
def alSet {α : Type} : List (String × α) → String → α → List (String × α)
  | [], n, v => [(n, v)]
  | (k, w) :: t, n, v => if k = n then (k, v) :: t else (k, w) :: alSet t n v

/-- Association-list removal by name (`delattr`): removes the binding of
the name from the attribute map. -/
def alErase {α : Type} : List (String × α) → String → List (String × α)
  | [], _ => []
  | (k, w) :: t, n => if k = n then alErase t n else (k, w) :: alErase t n

/-- The `Parameterized` store: the `_priors` and `_guides` registries, the
module's attributes, the `_mode` flag and the per-pass `_pyro_cache`. -/
structure Store where
  priors : List (String × PDist)
  guides : List (String × GuideFamily × List String)
  attrs : List (String × Attr)
  mode : Option String
  cache : List (String × Tensor)

/-- Errors raised by `autoguide`.  `missingPrior` is the spec's
`MissingPriorError` (the `ValueError` "There is no prior for parameter" in
the source); `unsupportedGuide` is the spec's `UnsupportedGuideError` (the
source's `NotImplementedError` "Unsupported distribution type");
`attributeError` models a failing `getattr`. -/
inductive GuideError where
  | missingPrior (name : String)
  | unsupportedGuide
  | attributeError (name : String)
deriving DecidableEq, Repr

/-- The "delete old guide" step of `autoguide` (lines 98–102): if a guide
is registered for `name`, `delattr` each backing sub-parameter
`"{name}_{arg}"`. -/
def deleteOldGuide (s : Store) (name : String) : Store :=
  match alGet s.guides name with
  | some (_, dist_args) =>
      { s with attrs := dist_args.foldl (fun a arg => alErase a (name ++ "_" ++ arg)) s.attrs }
  | none => s

/-- The list `[dist.Delta, dist.Normal, dist.MultivariateNormal]` of
supported guide constructors. -/
def supportedGuides : List GuideFamily := [.delta, .normal, .multivariateNormal]

/-- `autoguide` (parameterized.py lines 76–130).  An exception in the
source leaves the object in whatever state the mutations so far produced,
so the embedding returns the resulting store together with an optional
error: `(s', none)` is a normal return and `(s', some e)` a raise with the
store as mutated up to that point. -/
noncomputable def Store.autoguide (s : Store) (name : String) (dist_constructor : GuideFamily) :
    Store × Option GuideError :=
  if (alGet s.priors name).isNone then
    (s, some (.missingPrior name))
  else if dist_constructor ∉ supportedGuides then
    (s, some .unsupportedGuide)
  else
    match alGet s.priors name with
    | none => (s, some (.missingPrior name))
    | some prior =>
      let s1 := deleteOldGuide s name
      match alGet s1.attrs name with
      | none => (s1, some (.attributeError name))
      | some attr =>
        let p := attr.read
        match dist_constructor with
        | .delta =>
            let support := _get_independent_support prior
            let p_map : Attr := if support = .real then .param p else .pyroParam p support
            ({ s1 with attrs := alSet s1.attrs (name ++ "_map") p_map,
                       guides := alSet s1.guides name (.delta, ["map"]) }, none)
        | .normal =>
            let loc := tmap (bijectInv prior.support) p
            let scale := onesLike loc
            ({ s1 with attrs := alSet (alSet s1.attrs (name ++ "_loc") (.param loc))
                         (name ++ "_scale") (.pyroParam scale .positive),
                       guides := alSet s1.guides name (.normal, ["loc", "scale"]) }, none)
        | .multivariateNormal =>
            let loc := tmap (bijectInv prior.support) p
            let n := loc.shape.getLastD 0
            let scale_tril : Tensor :=
              ⟨loc.shape.dropLast ++ [n, n],
               (List.replicate loc.shape.dropLast.prod (eyeData n)).flatten⟩
            ({ s1 with attrs := alSet (alSet s1.attrs (name ++ "_loc") (.param loc))
                         (name ++ "_scale_tril") (.pyroParam scale_tril .lowerCholesky),
                       guides := alSet s1.guides name
                         (.multivariateNormal, ["loc", "scale_tril"]) }, none)
        | .otherDist _ => (s1, some .unsupportedGuide)

/-- `__setattr__` (lines 70–74): store the attribute; if the assigned
value is a `PyroSample`, record its prior in `_priors` and install the
default `Delta` autoguide.  `pyroSampleValue prior cur` is an assignment
of `PyroSample(prior)`, with `cur` the current buffer value the module
associates with the name (modelled from the spec: "we move parameters to
a buffer store"). -/
inductive AssignValue where
  | plain (a : Attr)
  | pyroSampleValue (prior : PDist) (cur : Tensor)

noncomputable def Store.setattrOp (s : Store) (name : String) (v : AssignValue) :
    Store × Option GuideError :=
  match v with
  | .plain a => ({ s with attrs := alSet s.attrs name a }, none)
  | .pyroSampleValue prior cur =>
      let s1 := { s with attrs := alSet s.attrs name (.sampleAttr prior cur),
                         priors := alSet s.priors name prior }
      s1.autoguide name .delta

/-- `set_mode` (lines 132–146): set the `mode` flag.  The source iterates
over all nested `Parameterized` submodules and writes the same flag on
each; the embedding models one store, for which the whole effect is this
single flag write (the registries and attributes are untouched). -/
def Store.set_mode (s : Store) (mode : String) : Store :=
  { s with mode := some mode }

/-- The joint guide distribution `dist_constructor(**dist_args)` built
from the backing sub-parameters (lines 174–175). -/
inductive JointDist where
  | normal (loc scale : Tensor)
  | multivariateNormal (loc scale_tril : Tensor)

/-- A distribution object produced by `_get_guide`:
`deltaDist v ld d` is `dist.Delta(v, ld, event_dim=d)` (with the
`log_density` argument defaulting to `0` when absent in the source), and
`jointEvent g` is `g.to_event()`, the joint distribution with all its
dimensions reinterpreted as one event. -/
inductive GuideDist where
  | deltaDist (value : Tensor) (log_density : ℝ) (event_dim : Nat)
  | jointEvent (g : JointDist)

/-- A distribution passed to the external sampling primitive
`pyro.sample`: either a prior or a guide-side distribution object. -/
inductive AnyDist where
  | priorDist (d : PDist)
  | guideDist (g : GuideDist)

/-- The record of one executed `pyro.sample(name, fn, ...)` statement: the
site name, the distribution sampled from, and whether the draw was tagged
`infer={"is_auxiliary": True}` (an internal/auxiliary variable). -/
structure Stmt where
  name : String
  dist : AnyDist
  is_auxiliary : Bool

/-- The value the external sampling primitive returns for a site: a draw
from a point-mass (`Delta`) distribution is its value; any other draw is
supplied by the oracle `ω` at the site name. -/
def drawFrom (ω : String → Tensor) (name : String) : AnyDist → Tensor
  | .guideDist (.deltaDist v _ _) => v
  | .guideDist (.jointEvent _) => ω name
  | .priorDist _ => ω name

/-- Build the `dist_args` dictionary of `_get_guide` (line 174) and the
joint guide `dist_constructor(**dist_args)` from the backing
sub-parameters. -/
def mkJointGuide (s : Store) (name : String) : GuideFamily → Option JointDist
  | .normal => do
      let loc ← alGet s.attrs (name ++ "_loc")
      let scale ← alGet s.attrs (name ++ "_scale")
      some (.normal loc.read scale.read)
  | .multivariateNormal => do
      let loc ← alGet s.attrs (name ++ "_loc")
      let scale_tril ← alGet s.attrs (name ++ "_scale_tril")
      some (.multivariateNormal loc.read scale_tril.read)
  | _ => none

/-- `_get_guide` (lines 166–189).  Returns the distribution object and the
list of sample statements executed while building it; `none` models the
`KeyError`/`AttributeError` raised when a registry or attribute lookup
fails.  `ω` supplies the value of each `pyro.sample` draw by site name. -/
noncomputable def Store._get_guide (s : Store) (name full_name : String) (ω : String → Tensor) :
    Option (GuideDist × List Stmt) :=
  match alGet s.guides name with
  | none => none
  | some (dist_constructor, _) =>
    match dist_constructor with
    | .delta =>
        match alGet s.attrs (name ++ "_map") with
        | none => none
        | some a => some (.deltaDist a.read 0 a.read.dim, [])
    | .otherDist _ => none
    | _ =>
      match mkJointGuide s name dist_constructor, alGet s.priors name with
      | some guide, some prior =>
          if _get_independent_support prior = .real then
            some (.jointEvent guide, [])
          else
            let unconstrained_value := ω (full_name ++ "_latent")
            let value := tmap (bijectFwd prior.support) unconstrained_value
            let log_density := tzip (bijectInvLadj prior.support) value unconstrained_value
            some (.deltaDist value log_density.sumAll value.dim,
              [⟨full_name ++ "_latent", .guideDist (.jointEvent guide), true⟩])
      | _, _ => none

/-- `name.split(".")[-1]`: the last dot-separated component. -/
def lastComponent (name : String) : String :=
  (name.splitOn ".").getLastD name

/-- `_pyro_sample` (lines 156–164).  Returns the value, the store with its
updated per-pass cache, and the sample statements executed; `none` models
a raised lookup error inside `_get_guide`. -/
noncomputable def Store._pyro_sample (s : Store) (name : String) (fn : PDist) (ω : String → Tensor) :
    Option (Tensor × Store × List Stmt) :=
  match alGet s.cache name with
  | some value => some (value, s, [])
  | none =>
      if s.mode = some "guide" then
        match s._get_guide (lastComponent name) name ω with
        | none => none
        | some (g, stmts) =>
            let value := drawFrom ω name (.guideDist g)
            some (value, { s with cache := alSet s.cache name value },
                  stmts ++ [⟨name, .guideDist g, false⟩])
      else
        let value := drawFrom ω name (.priorDist fn)
        some (value, { s with cache := alSet s.cache name value },
              [⟨name, .priorDist fn, false⟩])

/-- The invariant of the spec's data model: a guide entry exists for a
name only if a prior is registered for that name. -/
def guidesSubsetPriors (s : Store) : Prop :=
  ∀ n, (alGet s.guides n).isSome → (alGet s.priors n).isSome

namespace TruncatedPolyaGamma

/-- `truncation_point = 2.5` (polya_gamma.py line 27). -/
def truncation_point : ℝ := 2.5

/-- `num_log_prob_terms = 7` (line 28). -/
def num_log_prob_terms : Nat := 7

/-- `num_gamma_variates = 8` (line 29). -/
def num_gamma_variates : Nat := 8

/-- `TruncatedPolyaGamma.sample` (lines 41–47) for a single (scalar-batch)
draw.  The stochastic input is the vector `x` of `Gamma(1,1)` variates
drawn inside the method, passed here explicitly as `gammas`;
`torch.arange(0.5, 8)` is the vector `(i + 0.5)` for `i = 0,…,7`, and
`torch.clip(·, max=2.5)` is `min · 2.5`. -/
noncomputable def sample (gammas : List ℝ) : ℝ :=
  let denom := (List.range num_gamma_variates).map fun i => ((i : ℝ) + 0.5) ^ 2
  let x := ((gammas.zip denom).map fun p => p.1 / p.2).sum
  min (x * (0.5 / Real.pi ^ 2)) truncation_point

/-- `torch.logsumexp` over a list: `log (∑ exp)`. -/
noncomputable def logsumexp (l : List ℝ) : ℝ := Real.log ((l.map Real.exp).sum)

/-- `TruncatedPolyaGamma.log_prob` (lines 49–58) for a scalar value `v`.
`all_indices[::2]` and `all_indices[1::2]` are the even- and odd-valued
entries of `arange(0, 7)`, and `index_select` picks the series terms at
those indices. -/
noncomputable def log_prob (v : ℝ) : ℝ :=
  let all_indices := List.range num_log_prob_terms
  let log_terms := all_indices.map fun n =>
    Real.log (2 * (n : ℝ) + 1) - 1.5 * Real.log v - 0.125 * (2 * (n : ℝ) + 1) ^ 2 / v
  let even_terms := (all_indices.filter fun i => i % 2 = 0).map fun i => log_terms.getD i 0
  let odd_terms := (all_indices.filter fun i => i % 2 = 1).map fun i => log_terms.getD i 0
  let sum_even := Real.exp (logsumexp even_terms)
  let sum_odd := Real.exp (logsumexp odd_terms)
  Real.log (sum_even - sum_odd) - 0.5 * Real.log (2 * Real.pi)

/-- The series term of the claim, as the spec words it:
`log(2n+1) − 1.5·log(v) − (2n+1)²/(8v)`. -/
noncomputable def seriesTerm (v : ℝ) (n : Nat) : ℝ :=
  Real.log (2 * (n : ℝ) + 1) - 1.5 * Real.log v - (2 * (n : ℝ) + 1) ^ 2 / (8 * v)

/-- The claim's `even_sum`: the even-indexed of the 7 series terms, summed
via log-sum-exp followed by exponentiation. -/
noncomputable def even_sum (v : ℝ) : ℝ :=
  Real.exp (logsumexp (((List.range 7).filter fun n => n % 2 = 0).map (seriesTerm v)))

/-- The claim's `odd_sum`: the odd-indexed of the 7 series terms, summed
via log-sum-exp followed by exponentiation. -/
noncomputable def odd_sum (v : ℝ) : ℝ :=
  Real.exp (logsumexp (((List.range 7).filter fun n => n % 2 = 1).map (seriesTerm v)))

end TruncatedPolyaGamma

/-! ## Lemmas about the association-list primitives -/

theorem alGet_alSet_self {α : Type} (l : List (String × α)) (k : String) (v : α) :
    alGet (alSet l k v) k = some v := by
  induction l with
  | nil => simp [alSet, alGet]
  | cons h t ih =>
      by_cases hk : h.1 = k
      · simp [alSet, alGet, hk]
      · simpa [alSet, alGet, hk] using ih

theorem alGet_alSet_ne {α : Type} (l : List (String × α)) (k n : String) (v : α)
    (h : k ≠ n) : alGet (alSet l k v) n = alGet l n := by
  induction l with
  | nil => simp [alSet, alGet, h]
  | cons hd t ih =>
      by_cases hk : hd.1 = k
      · simp [alSet, alGet, hk, h]
      · simp only [alSet, hk, if_neg hk, alGet]
        by_cases hn : hd.1 = n
        · simp [hn]
        · simpa [hn] using ih

theorem alGet_alErase_ne {α : Type} (l : List (String × α)) (k n : String)
    (h : k ≠ n) : alGet (alErase l k) n = alGet l n := by
  have h' : n ≠ k := Ne.symm h
  induction l with
  | nil => rfl
  | cons hd t ih =>
      by_cases hk : hd.1 = k
      · have hn : hd.1 ≠ n := by rw [hk]; exact h
        simp [alErase, alGet, hk, hn, ih, h]
      · by_cases hn : hd.1 = n <;> simp [alErase, alGet, hk, hn, ih, h, h']

theorem alGet_alErase_self {α : Type} (l : List (String × α)) (k : String) :
    alGet (alErase l k) k = none := by
  induction l with
  | nil => rfl
  | cons hd t ih =>
      by_cases hk : hd.1 = k <;> simp [alErase, alGet, hk, ih]

/-! ## Lemmas about the derived sub-parameter names and the supports -/

theorem suffixed_ne_name (name arg : String) : name ++ "_" ++ arg ≠ name := by
  intro h
  have hl := congrArg String.length h
  rw [String.length_append, String.length_append] at hl
  have : ("_" : String).length = 1 := rfl
  omega

theorem suffixed_inj (name a b : String) (h : name ++ "_" ++ a = name ++ "_" ++ b) :
    a = b := by
  have hd := congrArg String.data h
  rw [String.data_append, String.data_append, String.data_append, String.data_append,
    List.append_assoc, List.append_assoc] at hd
  have h1 := List.append_cancel_left hd
  have h2 := List.append_cancel_left h1
  cases a; cases b; exact congrArg String.mk h2

theorem bijectFwd_support (p : PDist) :
    bijectFwd p.support = bijectFwd (_get_independent_support p) := by
  induction p with
  | prim s => rfl
  | independent d n ih => simpa [PDist.support, bijectFwd, _get_independent_support] using ih

theorem bijectInvLadj_support (p : PDist) :
    bijectInvLadj p.support = bijectInvLadj (_get_independent_support p) := by
  induction p with
  | prim s => rfl
  | independent d n ih =>
      simpa [PDist.support, bijectInvLadj, _get_independent_support] using ih

/-- In the model, a constrained (non-real) independent support is the
positive constraint. -/
theorem indep_support_of_ne_real (p : PDist)
    (h : _get_independent_support p ≠ .real) :
    _get_independent_support p = .positive := by
  induction p with
  | prim s => cases s <;> simp_all [_get_independent_support, PriorSupport.toConstraint]
  | independent d n ih => simp_all [_get_independent_support]

/-- The `Independent` wrapper does not change the set of legal tensors:
membership in the prior's own support and in its independent support
agree. -/
theorem memT_support_iff (p : PDist) (t : Tensor) :
    Constraint.memT p.support t ↔ Constraint.memT (_get_independent_support p) t := by
  induction p with
  | prim s => exact Iff.rfl
  | independent d n ih =>
      simpa [PDist.support, Constraint.memT, _get_independent_support] using ih

/-! ## Claim theorems -/

/-- **C9**: every value returned by `TruncatedPolyaGamma.sample` lies in
`[0, 2.5]`, and the sample is the sum of the `K = 8` independent
`Gamma(1,1)` variates, the variate at index `i` divided by `(i+0.5)^2`,
scaled by `1/(2π²)` and clamped to the truncation point `2.5`. -/
theorem tpg_sample_spec (g : List ℝ) (hlen : g.length = 8)
    (hnn : ∀ x ∈ g, 0 ≤ x) :
    0 ≤ TruncatedPolyaGamma.sample g ∧ TruncatedPolyaGamma.sample g ≤ 2.5 ∧
    TruncatedPolyaGamma.sample g =
      min ((((List.range 8).map fun i => g.getD i 0 / ((i : ℝ) + 0.5) ^ 2).sum) *
        (1 / (2 * Real.pi ^ 2))) 2.5 := by
  have hx : 0 ≤ ((g.zip ((List.range TruncatedPolyaGamma.num_gamma_variates).map
      fun i => ((i : ℝ) + 0.5) ^ 2)).map fun p => p.1 / p.2).sum := by
    apply List.sum_nonneg
    intro y hy
    obtain ⟨p, hp, rfl⟩ := List.mem_map.mp hy
    have hm := List.of_mem_zip hp
    obtain ⟨i, _, hieq⟩ := List.mem_map.mp hm.2
    rw [← hieq]
    exact div_nonneg (hnn _ hm.1) (by positivity)
  refine ⟨?_, ?_, ?_⟩
  · simp only [TruncatedPolyaGamma.sample, TruncatedPolyaGamma.truncation_point]
    exact le_min (mul_nonneg hx (by positivity)) (by norm_num)
  · simp only [TruncatedPolyaGamma.sample, TruncatedPolyaGamma.truncation_point]
    exact min_le_right _ _
  · obtain ⟨x0, g, rfl⟩ := List.exists_of_length_succ g hlen
    simp only [List.length_cons] at hlen
    obtain ⟨x1, g, rfl⟩ := List.exists_of_length_succ g (show g.length = 6 + 1 by omega)
    simp only [List.length_cons] at hlen
    obtain ⟨x2, g, rfl⟩ := List.exists_of_length_succ g (show g.length = 5 + 1 by omega)
    simp only [List.length_cons] at hlen
    obtain ⟨x3, g, rfl⟩ := List.exists_of_length_succ g (show g.length = 4 + 1 by omega)
    simp only [List.length_cons] at hlen
    obtain ⟨x4, g, rfl⟩ := List.exists_of_length_succ g (show g.length = 3 + 1 by omega)
    simp only [List.length_cons] at hlen
    obtain ⟨x5, g, rfl⟩ := List.exists_of_length_succ g (show g.length = 2 + 1 by omega)
    simp only [List.length_cons] at hlen
    obtain ⟨x6, g, rfl⟩ := List.exists_of_length_succ g (show g.length = 1 + 1 by omega)
    simp only [List.length_cons] at hlen
    obtain ⟨x7, g, rfl⟩ := List.exists_of_length_succ g (show g.length = 0 + 1 by omega)
    simp only [List.length_cons] at hlen
    have hnil : g = [] := List.length_eq_zero.mp (by omega)
    subst hnil
    have hr : List.range 8 = [0, 1, 2, 3, 4, 5, 6, 7] := rfl
    simp only [TruncatedPolyaGamma.sample, TruncatedPolyaGamma.num_gamma_variates,
      TruncatedPolyaGamma.truncation_point, hr, List.map_cons, List.map_nil,
      List.zip_cons_cons, List.zip_nil_right, List.sum_cons, List.sum_nil,
      List.getD_cons_zero, List.getD_cons_succ]
    norm_num
    congr 1
    ring

/-- **C10**: for every positive `v`, `TruncatedPolyaGamma.log_prob v`
equals `log(even_sum − odd_sum) − 0.5·log(2π)`, where `even_sum` and
`odd_sum` sum the even- and odd-indexed of the 7 series terms
`log(2n+1) − 1.5·log(v) − (2n+1)²/(8v)` via log-sum-exp followed by
exponentiation. -/
theorem tpg_log_prob_spec (v : ℝ) (hv : 0 < v) :
    TruncatedPolyaGamma.log_prob v =
      Real.log (TruncatedPolyaGamma.even_sum v - TruncatedPolyaGamma.odd_sum v) -
        0.5 * Real.log (2 * Real.pi) := by
  have hv' : v ≠ 0 := ne_of_gt hv
  have hterm : ∀ n : ℝ, 0.125 * (2 * n + 1) ^ 2 / v = (2 * n + 1) ^ 2 / (8 * v) := by
    intro n; field_simp; ring
  have hr : List.range 7 = [0, 1, 2, 3, 4, 5, 6] := rfl
  simp only [TruncatedPolyaGamma.log_prob, TruncatedPolyaGamma.even_sum,
    TruncatedPolyaGamma.odd_sum, TruncatedPolyaGamma.seriesTerm,
    TruncatedPolyaGamma.logsumexp, TruncatedPolyaGamma.num_log_prob_terms, hr]
  norm_num [List.filter, hterm, TruncatedPolyaGamma.seriesTerm]
  ring_nf

/-! ## Lemmas about `_pyro_sample` -/

theorem pyro_sample_cache_hit (s : Store) (name : String) (fn : PDist)
    (ω : String → Tensor) (v : Tensor) (h : alGet s.cache name = some v) :
    s._pyro_sample name fn ω = some (v, s, []) := by
  simp [Store._pyro_sample, h]

theorem pyro_sample_caches_value (s : Store) (name : String) (fn : PDist)
    (ω : String → Tensor) (v : Tensor) (s' : Store) (st : List Stmt)
    (h : s._pyro_sample name fn ω = some (v, s', st)) :
    alGet s'.cache name = some v := by
  unfold Store._pyro_sample at h
  cases hc : alGet s.cache name with
  | some v0 =>
      rw [hc] at h
      simp only [Option.some.injEq, Prod.mk.injEq] at h
      obtain ⟨rfl, rfl, -⟩ := h
      exact hc
  | none =>
      rw [hc] at h
      by_cases hm : s.mode = some "guide"
      · rw [if_pos hm] at h
        cases hg : s._get_guide (lastComponent name) name ω with
        | none => rw [hg] at h; exact absurd h (by simp)
        | some p =>
            rw [hg] at h
            simp only [Option.some.injEq, Prod.mk.injEq] at h
            obtain ⟨rfl, rfl, -⟩ := h
            exact alGet_alSet_self _ _ _
      · rw [if_neg hm] at h
        simp only [Option.some.injEq, Prod.mk.injEq] at h
        obtain ⟨rfl, rfl, -⟩ := h
        exact alGet_alSet_self _ _ _

/-! ## Lemmas about `deleteOldGuide` and `autoguide` -/

theorem deleteOldGuide_priors (s : Store) (name : String) :
    (deleteOldGuide s name).priors = s.priors := by
  unfold deleteOldGuide
  cases alGet s.guides name with
  | none => rfl
  | some p => rfl

theorem deleteOldGuide_guides (s : Store) (name : String) :
    (deleteOldGuide s name).guides = s.guides := by
  unfold deleteOldGuide
  cases alGet s.guides name with
  | none => rfl
  | some p => rfl

theorem alGet_foldl_erase_ne {α : Type} (l : List (String × α)) (name : String)
    (args : List String) (k : String) (hk : ∀ arg ∈ args, name ++ "_" ++ arg ≠ k) :
    alGet (args.foldl (fun a arg => alErase a (name ++ "_" ++ arg)) l) k = alGet l k := by
  induction args generalizing l with
  | nil => rfl
  | cons a t ih =>
      simp only [List.foldl_cons]
      rw [ih _ fun arg h => hk arg (List.mem_cons_of_mem a h),
        alGet_alErase_ne _ _ _ (hk a (List.mem_cons_self a t))]

theorem alGet_alErase_none {α : Type} (l : List (String × α)) (k k2 : String)
    (h : alGet l k = none) : alGet (alErase l k2) k = none := by
  by_cases hk : k2 = k
  · rw [hk]; exact alGet_alErase_self l k
  · rw [alGet_alErase_ne l k2 k hk]; exact h

theorem alGet_foldl_erase_none {α : Type} (l : List (String × α)) (name : String)
    (args : List String) (k : String) (h : alGet l k = none) :
    alGet (args.foldl (fun a arg => alErase a (name ++ "_" ++ arg)) l) k = none := by
  induction args generalizing l with
  | nil => exact h
  | cons a t ih =>
      simp only [List.foldl_cons]
      exact ih _ (alGet_alErase_none _ _ _ h)

theorem alGet_foldl_erase_mem {α : Type} (l : List (String × α)) (name : String)
    (args : List String) (arg : String) (h : arg ∈ args) :
    alGet (args.foldl (fun a a2 => alErase a (name ++ "_" ++ a2)) l)
      (name ++ "_" ++ arg) = none := by
  induction args generalizing l with
  | nil => cases h
  | cons a t ih =>
      simp only [List.foldl_cons]
      rcases List.mem_cons.mp h with rfl | hmem
      · exact alGet_foldl_erase_none _ _ _ _ (alGet_alErase_self _ _)
      · exact ih _ hmem

/-- After the "delete old guide" step, none of the previously installed
guide's suffixed attributes is present. -/
theorem deleteOldGuide_clears (s : Store) (name : String) (fam0 : GuideFamily)
    (args0 : List String) (hg : alGet s.guides name = some (fam0, args0)) :
    ∀ arg ∈ args0, alGet (deleteOldGuide s name).attrs (name ++ "_" ++ arg) = none := by
  intro arg harg
  unfold deleteOldGuide
  rw [hg]
  exact alGet_foldl_erase_mem _ _ _ _ harg

/-- `deleteOldGuide` only removes suffixed attributes, so the attribute
under `name` itself is untouched. -/
theorem deleteOldGuide_attr_name (s : Store) (name : String) :
    alGet (deleteOldGuide s name).attrs name = alGet s.attrs name := by
  unfold deleteOldGuide
  cases alGet s.guides name with
  | none => rfl
  | some p => exact alGet_foldl_erase_ne _ _ _ _ fun arg _ => suffixed_ne_name name arg

/-- **C2**: `_pyro_sample` returns the cached value on a cache hit (no new
draw); on a miss it draws through the external sampling primitive — from
the constructed guide distribution when the mode is `"guide"`, from the
given prior otherwise — caches the value under the name and returns it;
and a second read of the same name in the same pass returns the identical
value with no further draw. -/
theorem pyro_sample_spec (s : Store) (name : String) (fn : PDist)
    (ω : String → Tensor) :
    (∀ v, alGet s.cache name = some v → s._pyro_sample name fn ω = some (v, s, [])) ∧
    (alGet s.cache name = none → s.mode ≠ some "guide" →
      s._pyro_sample name fn ω =
        some (ω name, { s with cache := alSet s.cache name (ω name) },
          [⟨name, .priorDist fn, false⟩])) ∧
    (∀ g stmts, alGet s.cache name = none → s.mode = some "guide" →
      s._get_guide (lastComponent name) name ω = some (g, stmts) →
      s._pyro_sample name fn ω =
        some (drawFrom ω name (.guideDist g),
          { s with cache := alSet s.cache name (drawFrom ω name (.guideDist g)) },
          stmts ++ [⟨name, .guideDist g, false⟩])) ∧
    (∀ v s' st, s._pyro_sample name fn ω = some (v, s', st) →
      s'._pyro_sample name fn ω = some (v, s', [])) := by
  refine ⟨?_, ?_, ?_, ?_⟩
  · intro v h
    exact pyro_sample_cache_hit s name fn ω v h
  · intro h hm
    simp [Store._pyro_sample, h, if_neg hm, drawFrom]
  · intro g stmts h hm hg
    simp [Store._pyro_sample, h, if_pos hm, hg]
  · intro v s' st h
    exact pyro_sample_cache_hit s' name fn ω v
      (pyro_sample_caches_value s name fn ω v s' st h)
theorem autoguide_no_prior (s : Store) (name : String) (fam : GuideFamily)
    (h : alGet s.priors name = none) :
    s.autoguide name fam = (s, some (.missingPrior name)) := by
  simp [Store.autoguide, h]

theorem autoguide_unsupported (s : Store) (name : String) (fam : GuideFamily)
    (prior : PDist) (hp : alGet s.priors name = some prior)
    (h : fam ∉ supportedGuides) :
    s.autoguide name fam = (s, some .unsupportedGuide) := by
  simp [Store.autoguide, hp, h]

theorem autoguide_attr_missing (s : Store) (name : String) (fam : GuideFamily)
    (prior : PDist) (hp : alGet s.priors name = some prior)
    (hsup : fam ∈ supportedGuides)
    (ha : alGet (deleteOldGuide s name).attrs name = none) :
    s.autoguide name fam = (deleteOldGuide s name, some (.attributeError name)) := by
  have hns : ¬fam ∉ supportedGuides := fun hc => hc hsup
  simp [Store.autoguide, hp, hns, ha]

theorem autoguide_delta_eq (s : Store) (name : String) (prior : PDist) (a : Attr)
    (hp : alGet s.priors name = some prior)
    (ha : alGet (deleteOldGuide s name).attrs name = some a) :
    s.autoguide name .delta =
      ({ deleteOldGuide s name with
         attrs := alSet (deleteOldGuide s name).attrs (name ++ "_map")
           (if _get_independent_support prior = .real then .param a.read
            else .pyroParam a.read (_get_independent_support prior)),
         guides := alSet (deleteOldGuide s name).guides name (.delta, ["map"]) }, none) := by
  simp [Store.autoguide, hp, ha, supportedGuides]

theorem autoguide_normal_eq (s : Store) (name : String) (prior : PDist) (a : Attr)
    (hp : alGet s.priors name = some prior)
    (ha : alGet (deleteOldGuide s name).attrs name = some a) :
    s.autoguide name .normal =
      ({ deleteOldGuide s name with
         attrs := alSet (alSet (deleteOldGuide s name).attrs (name ++ "_loc")
             (.param (tmap (bijectInv prior.support) a.read)))
           (name ++ "_scale")
           (.pyroParam (onesLike (tmap (bijectInv prior.support) a.read)) .positive),
         guides := alSet (deleteOldGuide s name).guides name
           (.normal, ["loc", "scale"]) }, none) := by
  simp [Store.autoguide, hp, ha, supportedGuides]

theorem autoguide_mvn_eq (s : Store) (name : String) (prior : PDist) (a : Attr)
    (hp : alGet s.priors name = some prior)
    (ha : alGet (deleteOldGuide s name).attrs name = some a) :
    s.autoguide name .multivariateNormal =
      ({ deleteOldGuide s name with
         attrs := alSet (alSet (deleteOldGuide s name).attrs (name ++ "_loc")
             (.param (tmap (bijectInv prior.support) a.read)))
           (name ++ "_scale_tril")
           (.pyroParam
             ⟨(tmap (bijectInv prior.support) a.read).shape.dropLast ++
                [(tmap (bijectInv prior.support) a.read).shape.getLastD 0,
                 (tmap (bijectInv prior.support) a.read).shape.getLastD 0],
              (List.replicate (tmap (bijectInv prior.support) a.read).shape.dropLast.prod
                (eyeData ((tmap (bijectInv prior.support) a.read).shape.getLastD 0))).flatten⟩
             .lowerCholesky),
         guides := alSet (deleteOldGuide s name).guides name
           (.multivariateNormal, ["loc", "scale_tril"]) }, none) := by
  simp [Store.autoguide, hp, ha, supportedGuides]

/-- The `dist_args` suffix tuple recorded for each supported family. -/
def guideArgs : GuideFamily → List String
  | .delta => ["map"]
  | .normal => ["loc", "scale"]
  | .multivariateNormal => ["loc", "scale_tril"]
  | .otherDist _ => []

theorem append_underscore_map (name : String) :
    name ++ "_map" = name ++ "_" ++ "map" := by
  rw [String.append_assoc, show ("_" ++ "map" : String) = "_map" from rfl]

theorem append_underscore_loc (name : String) :
    name ++ "_loc" = name ++ "_" ++ "loc" := by
  rw [String.append_assoc, show ("_" ++ "loc" : String) = "_loc" from rfl]

theorem append_underscore_scale (name : String) :
    name ++ "_scale" = name ++ "_" ++ "scale" := by
  rw [String.append_assoc, show ("_" ++ "scale" : String) = "_scale" from rfl]

theorem append_underscore_scale_tril (name : String) :
    name ++ "_scale_tril" = name ++ "_" ++ "scale_tril" := by
  rw [String.append_assoc, show ("_" ++ "scale_tril" : String) = "_scale_tril" from rfl]

theorem suffixed_ne_of_ne (name a b : String) (h : a ≠ b) :
    name ++ "_" ++ a ≠ name ++ "_" ++ b :=
  fun hc => h (suffixed_inj name a b hc)

/-- **C4**: `install_guide(name, Delta)` computes the prior's independent
support by recursively unwrapping `Independent` adapters; when that
support is the unconstrained real domain it creates `{name}_map` as a free
unconstrained parameter initialized to a (detached) copy of the current
value of attribute `name`, and otherwise as a parameter constrained to the
prior's support — the independent support, whose set of legal tensors
coincides with the prior's own support — likewise initialized to a copy of
the current value. -/
theorem autoguide_delta_map_spec (s : Store) (name : String) (prior : PDist)
    (a : Attr) (hp : alGet s.priors name = some prior)
    (ha : alGet s.attrs name = some a) :
    ∃ s' : Store, s.autoguide name .delta = (s', none) ∧
      alGet s'.attrs (name ++ "_map") = some
        (if _get_independent_support prior = .real then .param a.read
         else .pyroParam a.read (_get_independent_support prior)) ∧
      (∀ t, Constraint.memT (_get_independent_support prior) t ↔
        Constraint.memT prior.support t) := by
  have ha' : alGet (deleteOldGuide s name).attrs name = some a := by
    rw [deleteOldGuide_attr_name]; exact ha
  refine ⟨_, autoguide_delta_eq s name prior a hp ha', ?_, ?_⟩
  · exact alGet_alSet_self _ _ _
  · intro t
    exact (memT_support_iff prior t).symm

/-- **C6**: assigning a `PyroSample`-bearing value to attribute `name`
records its prior as the active prior for `name` and immediately installs
the default `Delta` guide, with the same effect as calling
`install_guide(name, Delta)` on the store with the prior recorded; the
installation succeeds. -/
theorem setattr_prior_spec (s : Store) (name : String) (prior : PDist)
    (cur : Tensor) :
    let s1 : Store := { s with attrs := alSet s.attrs name (.sampleAttr prior cur),
                               priors := alSet s.priors name prior }
    alGet s1.priors name = some prior ∧
    s.setattrOp name (.pyroSampleValue prior cur) = s1.autoguide name .delta ∧
    ∃ s2 : Store, s1.autoguide name .delta = (s2, none) := by
  intro s1
  have hp : alGet s1.priors name = some prior := alGet_alSet_self _ _ _
  have ha : alGet (deleteOldGuide s1 name).attrs name =
      some (.sampleAttr prior cur) := by
    rw [deleteOldGuide_attr_name]
    exact alGet_alSet_self _ _ _
  exact ⟨hp, rfl, _, autoguide_delta_eq s1 name prior (.sampleAttr prior cur) hp ha⟩

/-- **C7**: `install_guide` fails with the missing-prior error whenever no
prior is registered for the name (leaving the store unchanged), fails with
the unsupported-guide error whenever the family is not one of `Delta`,
`Normal`, `MultivariateNormal` (likewise leaving the store unchanged), and
raises neither of those errors when a prior exists and the family is
supported. -/
theorem autoguide_error_spec (s : Store) (name : String) (fam : GuideFamily) :
    (alGet s.priors name = none →
       s.autoguide name fam = (s, some (.missingPrior name))) ∧
    (∀ prior, alGet s.priors name = some prior → fam ∉ supportedGuides →
       s.autoguide name fam = (s, some .unsupportedGuide)) ∧
    (∀ prior, alGet s.priors name = some prior → fam ∈ supportedGuides →
       (∀ n2, (s.autoguide name fam).2 ≠ some (.missingPrior n2)) ∧
       (s.autoguide name fam).2 ≠ some .unsupportedGuide) := by
  refine ⟨fun h => autoguide_no_prior s name fam h,
    fun prior hp h => autoguide_unsupported s name fam prior hp h,
    fun prior hp hsup => ?_⟩
  cases ha : alGet (deleteOldGuide s name).attrs name with
  | none =>
      rw [autoguide_attr_missing s name fam prior hp hsup ha]
      exact ⟨fun n2 => by simp, by simp⟩
  | some a =>
      cases fam with
      | delta => rw [autoguide_delta_eq s name prior a hp ha]; exact ⟨fun n2 => by simp, by simp⟩
      | normal => rw [autoguide_normal_eq s name prior a hp ha]; exact ⟨fun n2 => by simp, by simp⟩
      | multivariateNormal =>
          rw [autoguide_mvn_eq s name prior a hp ha]
          exact ⟨fun n2 => by simp, by simp⟩
      | otherDist tag => simp [supportedGuides] at hsup

/-- **C5**: installing a new guide first deletes every backing
sub-parameter attribute `{name}_{suffix}` of the previously installed
guide (after the deletion step none of them is present), and after
`autoguide` returns, every old suffix that is not also one of the new
guide's suffixes — i.e. not freshly re-created as a backing sub-parameter
of the new guide — is absent from the store. -/
theorem autoguide_removes_old_spec (s : Store) (name : String)
    (fam0 : GuideFamily) (args0 : List String) (fam : GuideFamily) (s' : Store)
    (hg : alGet s.guides name = some (fam0, args0))
    (hok : s.autoguide name fam = (s', none)) :
    (∀ arg ∈ args0, alGet (deleteOldGuide s name).attrs (name ++ "_" ++ arg) = none) ∧
    (∀ arg ∈ args0, arg ∉ guideArgs fam →
       alGet s'.attrs (name ++ "_" ++ arg) = none) := by
  refine ⟨deleteOldGuide_clears s name fam0 args0 hg, ?_⟩
  intro arg hmem hnew
  have hclear := deleteOldGuide_clears s name fam0 args0 hg arg hmem
  cases hp : alGet s.priors name with
  | none =>
      rw [autoguide_no_prior s name fam hp] at hok
      have := congrArg Prod.snd hok; simp at this
  | some prior =>
      cases fam with
      | otherDist tag =>
          rw [autoguide_unsupported s name _ prior hp (by simp [supportedGuides])] at hok
          have := congrArg Prod.snd hok; simp at this
      | delta =>
          cases ha : alGet (deleteOldGuide s name).attrs name with
          | none =>
              rw [autoguide_attr_missing s name _ prior hp
                (by simp [supportedGuides]) ha] at hok
              have := congrArg Prod.snd hok; simp at this
          | some a =>
              rw [autoguide_delta_eq s name prior a hp ha] at hok
              injection hok with h1 h2
              subst h1
              have hne : arg ≠ "map" := by simpa [guideArgs] using hnew
              rw [append_underscore_map,
                alGet_alSet_ne _ _ _ _ (suffixed_ne_of_ne name "map" arg hne.symm)]
              exact hclear
      | normal =>
          cases ha : alGet (deleteOldGuide s name).attrs name with
          | none =>
              rw [autoguide_attr_missing s name _ prior hp
                (by simp [supportedGuides]) ha] at hok
              have := congrArg Prod.snd hok; simp at this
          | some a =>
              rw [autoguide_normal_eq s name prior a hp ha] at hok
              injection hok with h1 h2
              subst h1
              have hne1 : arg ≠ "loc" := by simp [guideArgs] at hnew; exact hnew.1
              have hne2 : arg ≠ "scale" := by simp [guideArgs] at hnew; exact hnew.2
              rw [append_underscore_scale,
                alGet_alSet_ne _ _ _ _ (suffixed_ne_of_ne name "scale" arg hne2.symm),
                append_underscore_loc,
                alGet_alSet_ne _ _ _ _ (suffixed_ne_of_ne name "loc" arg hne1.symm)]
              exact hclear
      | multivariateNormal =>
          cases ha : alGet (deleteOldGuide s name).attrs name with
          | none =>
              rw [autoguide_attr_missing s name _ prior hp
                (by simp [supportedGuides]) ha] at hok
              have := congrArg Prod.snd hok; simp at this
          | some a =>
              rw [autoguide_mvn_eq s name prior a hp ha] at hok
              injection hok with h1 h2
              subst h1
              have hne1 : arg ≠ "loc" := by simp [guideArgs] at hnew; exact hnew.1
              have hne2 : arg ≠ "scale_tril" := by
                simp [guideArgs] at hnew; exact hnew.2
              rw [append_underscore_scale_tril,
                alGet_alSet_ne _ _ _ _
                  (suffixed_ne_of_ne name "scale_tril" arg hne2.symm),
                append_underscore_loc,
                alGet_alSet_ne _ _ _ _ (suffixed_ne_of_ne name "loc" arg hne1.symm)]
              exact hclear

/-! ## Invariant preservation -/

theorem autoguide_preserves_inv (s : Store) (name : String) (fam : GuideFamily)
    (hinv : guidesSubsetPriors s) : guidesSubsetPriors (s.autoguide name fam).1 := by
  cases hp : alGet s.priors name with
  | none => rw [autoguide_no_prior s name fam hp]; exact hinv
  | some prior =>
      by_cases hsup : fam ∈ supportedGuides
      · cases ha : alGet (deleteOldGuide s name).attrs name with
        | none =>
            rw [autoguide_attr_missing s name fam prior hp hsup ha]
            intro n hn
            rw [deleteOldGuide_guides] at hn
            rw [deleteOldGuide_priors]
            exact hinv n hn
        | some a =>
            cases fam with
            | delta =>
                rw [autoguide_delta_eq s name prior a hp ha]
                intro n hn
                simp only [deleteOldGuide_guides] at hn
                show (alGet (deleteOldGuide s name).priors n).isSome
                rw [deleteOldGuide_priors]
                by_cases he : name = n
                · subst he; rw [hp]; rfl
                · rw [alGet_alSet_ne _ _ _ _ he] at hn; exact hinv n hn
            | normal =>
                rw [autoguide_normal_eq s name prior a hp ha]
                intro n hn
                simp only [deleteOldGuide_guides] at hn
                show (alGet (deleteOldGuide s name).priors n).isSome
                rw [deleteOldGuide_priors]
                by_cases he : name = n
                · subst he; rw [hp]; rfl
                · rw [alGet_alSet_ne _ _ _ _ he] at hn; exact hinv n hn
            | multivariateNormal =>
                rw [autoguide_mvn_eq s name prior a hp ha]
                intro n hn
                simp only [deleteOldGuide_guides] at hn
                show (alGet (deleteOldGuide s name).priors n).isSome
                rw [deleteOldGuide_priors]
                by_cases he : name = n
                · subst he; rw [hp]; rfl
                · rw [alGet_alSet_ne _ _ _ _ he] at hn; exact hinv n hn
            | otherDist tag => simp [supportedGuides] at hsup
      · rw [autoguide_unsupported s name fam prior hp hsup]; exact hinv

theorem setattrOp_preserves_inv (s : Store) (name : String) (v : AssignValue)
    (hinv : guidesSubsetPriors s) : guidesSubsetPriors (s.setattrOp name v).1 := by
  cases v with
  | plain a => exact hinv
  | pyroSampleValue prior cur =>
      apply autoguide_preserves_inv
      intro n hn
      by_cases he : name = n
      · subst he
        show (alGet (alSet s.priors name prior) name).isSome
        rw [alGet_alSet_self]; rfl
      · show (alGet (alSet s.priors name prior) n).isSome
        rw [alGet_alSet_ne _ _ _ _ he]
        exact hinv n hn

theorem pyro_sample_preserves_registries (s : Store) (name : String) (fn : PDist)
    (ω : String → Tensor) (v : Tensor) (s' : Store) (st : List Stmt)
    (h : s._pyro_sample name fn ω = some (v, s', st)) :
    s'.guides = s.guides ∧ s'.priors = s.priors := by
  unfold Store._pyro_sample at h
  cases hc : alGet s.cache name with
  | some v0 =>
      rw [hc] at h
      simp only [Option.some.injEq, Prod.mk.injEq] at h
      obtain ⟨-, rfl, -⟩ := h
      exact ⟨rfl, rfl⟩
  | none =>
      rw [hc] at h
      by_cases hm : s.mode = some "guide"
      · rw [if_pos hm] at h
        cases hg : s._get_guide (lastComponent name) name ω with
        | none => rw [hg] at h; exact absurd h (by simp)
        | some p =>
            rw [hg] at h
            simp only [Option.some.injEq, Prod.mk.injEq] at h
            obtain ⟨-, rfl, -⟩ := h
            exact ⟨rfl, rfl⟩
      · rw [if_neg hm] at h
        simp only [Option.some.injEq, Prod.mk.injEq] at h
        obtain ⟨-, rfl, -⟩ := h
        exact ⟨rfl, rfl⟩

/-- **C8**: every store operation — prior registration via attribute
assignment, `install_guide`, `set_mode` and `sample_parameter` — preserves
the invariant that the domain of the guide registry is contained in the
domain of the prior registry. -/
theorem registries_invariant_spec (s : Store) (hinv : guidesSubsetPriors s) :
    (∀ name v, guidesSubsetPriors (s.setattrOp name v).1) ∧
    (∀ name fam, guidesSubsetPriors (s.autoguide name fam).1) ∧
    (∀ m, guidesSubsetPriors (s.set_mode m)) ∧
    (∀ name fn ω v s' st, s._pyro_sample name fn ω = some (v, s', st) →
       guidesSubsetPriors s') := by
  refine ⟨fun name v => setattrOp_preserves_inv s name v hinv,
    fun name fam => autoguide_preserves_inv s name fam hinv,
    fun m => hinv,
    fun name fn ω v s' st h => ?_⟩
  obtain ⟨hg, hp⟩ := pyro_sample_preserves_registries s name fn ω v s' st h
  intro n hn
  rw [hg] at hn
  rw [hp]
  exact hinv n hn

/-! ## `_get_guide` for the Normal / MultivariateNormal families -/

/-- **C3**: when the prior's independent support (obtained by recursively
unwrapping `Independent` adapters) is the unconstrained real domain,
`_get_guide` for a `Normal`/`MultivariateNormal` guide returns the joint
distribution built from the backing sub-parameters unchanged: no sample
statement is executed (so no auxiliary draw) and the result carries no
log-density correction (it is not a `Delta` with a bias, but the joint
distribution itself). -/
theorem get_guide_real_support_spec (s : Store) (name full_name : String)
    (ω : String → Tensor) (prior : PDist) (fam : GuideFamily)
    (args : List String) (g : JointDist)
    (hg : alGet s.guides name = some (fam, args))
    (hfam : fam = .normal ∨ fam = .multivariateNormal)
    (hp : alGet s.priors name = some prior)
    (hreal : _get_independent_support prior = .real)
    (hj : mkJointGuide s name fam = some g) :
    s._get_guide name full_name ω = some (.jointEvent g, []) := by
  rcases hfam with rfl | rfl <;>
    simp [Store._get_guide, hg, hp, hj, hreal]

theorem tzip_ladj_exp_sum (l : List ℝ) :
    (((l.map Real.exp).zip l).map fun p => -Real.log p.1).sum = -l.sum := by
  induction l with
  | nil => simp
  | cons x t ih =>
      simp only [List.map_cons, List.zip_cons_cons, List.sum_cons, ih, Real.log_exp]
      ring

/-- **C1**: when the prior's independent support is constrained
(non-real) and the installed guide family is `Normal` or
`MultivariateNormal`, `_get_guide` draws one auxiliary latent sample from
the joint guide distribution tagged `is_auxiliary`, maps it through the
support's canonical bijective transform, and returns a point-mass
(`Delta`) distribution at the transformed value whose log-density bias is
the sum over all entries of the inverse transform's
log-abs-det-Jacobian at that point and whose event dimensionality is the
value's tensor rank; the returned value lies in the constrained support,
and for the exponential bijection of the positive support the bias equals
minus the sum of the unconstrained sample's entries. -/
theorem get_guide_constrained_spec (s : Store) (name full_name : String)
    (ω : String → Tensor) (prior : PDist) (fam : GuideFamily)
    (args : List String) (g : JointDist)
    (hg : alGet s.guides name = some (fam, args))
    (hfam : fam = .normal ∨ fam = .multivariateNormal)
    (hp : alGet s.priors name = some prior)
    (hcon : _get_independent_support prior ≠ .real)
    (hj : mkJointGuide s name fam = some g) :
    let u := ω (full_name ++ "_latent")
    let value := tmap (bijectFwd prior.support) u
    let log_density := (tzip (bijectInvLadj prior.support) value u).sumAll
    s._get_guide name full_name ω =
      some (.deltaDist value log_density value.dim,
        [⟨full_name ++ "_latent", .guideDist (.jointEvent g), true⟩]) ∧
    Constraint.memT (_get_independent_support prior) value ∧
    log_density = -u.data.sum := by
  intro u value log_density
  have hpos : _get_independent_support prior = .positive :=
    indep_support_of_ne_real prior hcon
  have hfwd : bijectFwd prior.support = Real.exp := by
    rw [bijectFwd_support, hpos]; rfl
  have hladj : bijectInvLadj prior.support = fun y _ => -Real.log y := by
    rw [bijectInvLadj_support, hpos]; rfl
  refine ⟨?_, ?_, ?_⟩
  · rcases hfam with rfl | rfl <;>
      simp [Store._get_guide, hg, hp, hj, hcon, u, value, log_density]
  · rw [hpos]
    intro x hx
    simp only [value, tmap, hfwd, List.mem_map] at hx
    obtain ⟨y, -, rfl⟩ := hx
    exact Real.exp_pos y
  · show (tzip (bijectInvLadj prior.support) value u).sumAll = -u.data.sum
    simp only [tzip, value, tmap, hfwd, hladj, Tensor.sumAll]
    exact tzip_ladj_exp_sum u.data

/-! ## Concrete witnesses -/

/-- Witness for the `TruncatedPolyaGamma.sample` claim at the all-ones
vector of Gamma variates. -/
theorem tpg_sample_spec_witness :
    (([1, 1, 1, 1, 1, 1, 1, 1] : List ℝ).length = 8 ∧
      ∀ x ∈ ([1, 1, 1, 1, 1, 1, 1, 1] : List ℝ), 0 ≤ x) ∧
    (0 ≤ TruncatedPolyaGamma.sample [1, 1, 1, 1, 1, 1, 1, 1] ∧
      TruncatedPolyaGamma.sample [1, 1, 1, 1, 1, 1, 1, 1] ≤ 2.5 ∧
      TruncatedPolyaGamma.sample [1, 1, 1, 1, 1, 1, 1, 1] =
        min ((((List.range 8).map fun i =>
          ([1, 1, 1, 1, 1, 1, 1, 1] : List ℝ).getD i 0 / ((i : ℝ) + 0.5) ^ 2).sum) *
          (1 / (2 * Real.pi ^ 2))) 2.5) :=
  ⟨⟨rfl, by norm_num⟩,
    tpg_sample_spec [1, 1, 1, 1, 1, 1, 1, 1] rfl (by norm_num)⟩

/-- Witness for the `TruncatedPolyaGamma.log_prob` claim at `v = 1`. -/
theorem tpg_log_prob_spec_witness :
    (0 : ℝ) < 1 ∧
    TruncatedPolyaGamma.log_prob 1 =
      Real.log (TruncatedPolyaGamma.even_sum 1 - TruncatedPolyaGamma.odd_sum 1) -
        0.5 * Real.log (2 * Real.pi) :=
  ⟨one_pos, tpg_log_prob_spec 1 one_pos⟩

/-- Witness for the `_pyro_sample` claim: a cache miss in prior mode on an
empty store draws from the prior, caches and returns the drawn value. -/
theorem pyro_sample_spec_witness :
    (alGet (Store.mk [] [] [] none []).cache "x" = none ∧
      (Store.mk [] [] [] none []).mode ≠ some "guide") ∧
    (Store.mk [] [] [] none [])._pyro_sample "x" (.prim .real)
        (fun _ => (⟨[], []⟩ : Tensor)) =
      some ((fun _ => (⟨[], []⟩ : Tensor)) "x",
        { Store.mk [] [] [] none [] with
          cache := alSet [] "x" ((fun _ => (⟨[], []⟩ : Tensor)) "x") },
        [⟨"x", .priorDist (.prim .real), false⟩]) :=
  ⟨⟨rfl, by simp⟩,
    (pyro_sample_spec (Store.mk [] [] [] none []) "x" (.prim .real)
      (fun _ => (⟨[], []⟩ : Tensor))).2.1 rfl (by simp)⟩

/-- Witness for the `Delta` autoguide claim on a positive-support prior. -/
theorem autoguide_delta_map_spec_witness :
    (alGet (Store.mk [("x", PDist.prim .positive)] []
        [("x", Attr.param ⟨[], [1]⟩)] none []).priors "x" =
      some (PDist.prim .positive) ∧
     alGet (Store.mk [("x", PDist.prim .positive)] []
        [("x", Attr.param ⟨[], [1]⟩)] none []).attrs "x" =
      some (Attr.param ⟨[], [1]⟩)) ∧
    (∃ s' : Store,
      (Store.mk [("x", PDist.prim .positive)] []
        [("x", Attr.param ⟨[], [1]⟩)] none []).autoguide "x" .delta = (s', none) ∧
      alGet s'.attrs ("x" ++ "_map") = some
        (if _get_independent_support (PDist.prim .positive) = .real then
          .param (Attr.param ⟨[], [1]⟩).read
         else .pyroParam (Attr.param ⟨[], [1]⟩).read
           (_get_independent_support (PDist.prim .positive))) ∧
      (∀ t, Constraint.memT (_get_independent_support (PDist.prim .positive)) t ↔
        Constraint.memT (PDist.prim .positive).support t)) :=
  ⟨⟨rfl, rfl⟩,
    autoguide_delta_map_spec (Store.mk [("x", PDist.prim .positive)] []
      [("x", Attr.param ⟨[], [1]⟩)] none []) "x" (PDist.prim .positive)
      (Attr.param ⟨[], [1]⟩) rfl rfl⟩

/-- Witness for the `install_guide` error claim: on the empty store there
is no prior for `"x"`, and `autoguide` returns the missing-prior error
with the store unchanged. -/
theorem autoguide_error_spec_witness :
    alGet (Store.mk [] [] [] none []).priors "x" = none ∧
    (Store.mk [] [] [] none []).autoguide "x" .delta =
      (Store.mk [] [] [] none [], some (.missingPrior "x")) :=
  ⟨rfl, (autoguide_error_spec (Store.mk [] [] [] none []) "x" .delta).1 rfl⟩

/-- Witness for the old-guide-removal claim: replacing an installed
`Delta` guide by a `Normal` guide removes the old `map` sub-parameter. -/
theorem autoguide_removes_old_spec_witness :
    (alGet (Store.mk [("x", PDist.prim .real)] [("x", (.delta, ["map"]))]
        [("x", Attr.param ⟨[], [1]⟩), ("x_map", Attr.param ⟨[], [1]⟩)]
        none []).guides "x" = some (.delta, ["map"]) ∧
     (Store.mk [("x", PDist.prim .real)] [("x", (.delta, ["map"]))]
        [("x", Attr.param ⟨[], [1]⟩), ("x_map", Attr.param ⟨[], [1]⟩)]
        none []).autoguide "x" .normal =
      (Store.mk [("x", PDist.prim .real)] [("x", (.normal, ["loc", "scale"]))]
        [("x", Attr.param ⟨[], [1]⟩), ("x_loc", Attr.param ⟨[], [1]⟩),
         ("x_scale", Attr.pyroParam ⟨[], [1]⟩ .positive)]
        none [], none)) ∧
    ((∀ arg ∈ ["map"],
        alGet (deleteOldGuide (Store.mk [("x", PDist.prim .real)]
          [("x", (.delta, ["map"]))]
          [("x", Attr.param ⟨[], [1]⟩), ("x_map", Attr.param ⟨[], [1]⟩)]
          none []) "x").attrs ("x" ++ "_" ++ arg) = none) ∧
     (∀ arg ∈ ["map"], arg ∉ guideArgs .normal →
        alGet (Store.mk [("x", PDist.prim .real)]
          [("x", (.normal, ["loc", "scale"]))]
          [("x", Attr.param ⟨[], [1]⟩), ("x_loc", Attr.param ⟨[], [1]⟩),
           ("x_scale", Attr.pyroParam ⟨[], [1]⟩ .positive)]
          none []).attrs ("x" ++ "_" ++ arg) = none)) :=
  ⟨⟨rfl, rfl⟩,
    autoguide_removes_old_spec (Store.mk [("x", PDist.prim .real)]
      [("x", (.delta, ["map"]))]
      [("x", Attr.param ⟨[], [1]⟩), ("x_map", Attr.param ⟨[], [1]⟩)] none [])
      "x" .delta ["map"] .normal
      (Store.mk [("x", PDist.prim .real)] [("x", (.normal, ["loc", "scale"]))]
        [("x", Attr.param ⟨[], [1]⟩), ("x_loc", Attr.param ⟨[], [1]⟩),
         ("x_scale", Attr.pyroParam ⟨[], [1]⟩ .positive)]
        none []) rfl rfl⟩

/-- Witness for the registry-invariant claim on the empty store. -/
theorem registries_invariant_spec_witness :
    guidesSubsetPriors (Store.mk [] [] [] none []) ∧
    ((∀ name v, guidesSubsetPriors ((Store.mk [] [] [] none []).setattrOp name v).1) ∧
     (∀ name fam, guidesSubsetPriors ((Store.mk [] [] [] none []).autoguide name fam).1) ∧
     (∀ m, guidesSubsetPriors ((Store.mk [] [] [] none []).set_mode m)) ∧
     (∀ name fn ω v s' st,
        (Store.mk [] [] [] none [])._pyro_sample name fn ω = some (v, s', st) →
        guidesSubsetPriors s')) :=
  ⟨fun n h => by simp [alGet] at h,
    registries_invariant_spec (Store.mk [] [] [] none [])
      fun n h => by simp [alGet] at h⟩

/-- Witness for the real-support `_get_guide` claim: a `Normal` guide over
a real-support prior is returned as the joint distribution with no sample
statements. -/
theorem get_guide_real_support_spec_witness :
    (alGet (Store.mk [("x", PDist.prim .real)] [("x", (.normal, ["loc", "scale"]))]
        [("x_loc", Attr.param ⟨[], [0]⟩), ("x_scale", Attr.pyroParam ⟨[], [1]⟩ .positive)]
        none []).guides "x" = some (.normal, ["loc", "scale"]) ∧
     alGet (Store.mk [("x", PDist.prim .real)] [("x", (.normal, ["loc", "scale"]))]
        [("x_loc", Attr.param ⟨[], [0]⟩), ("x_scale", Attr.pyroParam ⟨[], [1]⟩ .positive)]
        none []).priors "x" = some (PDist.prim .real) ∧
     _get_independent_support (PDist.prim .real) = .real ∧
     mkJointGuide (Store.mk [("x", PDist.prim .real)] [("x", (.normal, ["loc", "scale"]))]
        [("x_loc", Attr.param ⟨[], [0]⟩), ("x_scale", Attr.pyroParam ⟨[], [1]⟩ .positive)]
        none []) "x" .normal = some (.normal ⟨[], [0]⟩ ⟨[], [1]⟩)) ∧
    (Store.mk [("x", PDist.prim .real)] [("x", (.normal, ["loc", "scale"]))]
        [("x_loc", Attr.param ⟨[], [0]⟩), ("x_scale", Attr.pyroParam ⟨[], [1]⟩ .positive)]
        none [])._get_guide "x" "x" (fun _ => (⟨[], [0]⟩ : Tensor)) =
      some (.jointEvent (.normal ⟨[], [0]⟩ ⟨[], [1]⟩), []) :=
  ⟨⟨rfl, rfl, rfl, rfl⟩,
    get_guide_real_support_spec (Store.mk [("x", PDist.prim .real)]
      [("x", (.normal, ["loc", "scale"]))]
      [("x_loc", Attr.param ⟨[], [0]⟩), ("x_scale", Attr.pyroParam ⟨[], [1]⟩ .positive)]
      none []) "x" "x" (fun _ => (⟨[], [0]⟩ : Tensor)) (PDist.prim .real) .normal
      ["loc", "scale"] (.normal ⟨[], [0]⟩ ⟨[], [1]⟩) rfl (Or.inl rfl) rfl rfl rfl⟩

/-- Witness for the constrained-support `_get_guide` claim: a `Normal`
guide over a positive-support prior yields a `Delta` at the
exponential-transformed auxiliary sample with the change-of-variables
bias. -/
theorem get_guide_constrained_spec_witness :
    (alGet (Store.mk [("x", PDist.prim .positive)] [("x", (.normal, ["loc", "scale"]))]
        [("x_loc", Attr.param ⟨[], [0]⟩), ("x_scale", Attr.pyroParam ⟨[], [1]⟩ .positive)]
        none []).guides "x" = some (.normal, ["loc", "scale"]) ∧
     alGet (Store.mk [("x", PDist.prim .positive)] [("x", (.normal, ["loc", "scale"]))]
        [("x_loc", Attr.param ⟨[], [0]⟩), ("x_scale", Attr.pyroParam ⟨[], [1]⟩ .positive)]
        none []).priors "x" = some (PDist.prim .positive) ∧
     _get_independent_support (PDist.prim .positive) ≠ .real ∧
     mkJointGuide (Store.mk [("x", PDist.prim .positive)]
        [("x", (.normal, ["loc", "scale"]))]
        [("x_loc", Attr.param ⟨[], [0]⟩), ("x_scale", Attr.pyroParam ⟨[], [1]⟩ .positive)]
        none []) "x" .normal = some (.normal ⟨[], [0]⟩ ⟨[], [1]⟩)) ∧
    (let u := (fun _ => (⟨[], [0]⟩ : Tensor)) ("x" ++ "_latent")
     let value := tmap (bijectFwd (PDist.prim .positive).support) u
     let log_density := (tzip (bijectInvLadj (PDist.prim .positive).support) value u).sumAll
     (Store.mk [("x", PDist.prim .positive)] [("x", (.normal, ["loc", "scale"]))]
        [("x_loc", Attr.param ⟨[], [0]⟩), ("x_scale", Attr.pyroParam ⟨[], [1]⟩ .positive)]
        none [])._get_guide "x" "x" (fun _ => (⟨[], [0]⟩ : Tensor)) =
       some (.deltaDist value log_density value.dim,
         [⟨"x" ++ "_latent", .guideDist (.jointEvent (.normal ⟨[], [0]⟩ ⟨[], [1]⟩)), true⟩]) ∧
     Constraint.memT (_get_independent_support (PDist.prim .positive)) value ∧
     log_density = -u.data.sum) :=
  ⟨⟨rfl, rfl, by decide, rfl⟩,
    get_guide_constrained_spec (Store.mk [("x", PDist.prim .positive)]
      [("x", (.normal, ["loc", "scale"]))]
      [("x_loc", Attr.param ⟨[], [0]⟩), ("x_scale", Attr.pyroParam ⟨[], [1]⟩ .positive)]
      none []) "x" "x" (fun _ => (⟨[], [0]⟩ : Tensor)) (PDist.prim .positive) .normal
      ["loc", "scale"] (.normal ⟨[], [0]⟩ ⟨[], [1]⟩) rfl (Or.inl rfl) rfl
      (by decide) rfl⟩

end Pyro
